import Mathlib

set_option maxHeartbeats 1000000

/-!
Verification of the conversation-flattening and event-translation layer of
a Claude Messages API gateway.  The repository contains two near-duplicate
variants of the gateway: an Express/Node variant (`src/server.ts`,
embedded in namespace `Server`) and a Bun/Hono variant
(`src/unnamed/part_000`, embedded in namespace `Bun`).  Definitions are
shallow embeddings of the TypeScript source; theorems settle the spec
claims against them.
-/

/-- Message roles appearing on the wire (`'user' | 'assistant' | 'system'`). -/
inductive Role where
  | user
  | assistant
  | system
deriving DecidableEq, Repr

/-- JSON values, modelling the payloads handed to `JSON.stringify`
(tool inputs and array-valued tool results). -/
inductive Json where
  | null
  | bool (b : Bool)
  | num (n : Int)
  | str (s : String)
  | arr (xs : List Json)
  | obj (fields : List (String × Json))

/-- String escaping performed by `JSON.stringify` on string values
(modelled for quotes and backslashes). -/
def Json.escapeString (s : String) : String :=
  ⟨(s.data.map (fun c =>
      if c = '"' then ['\\', '"']
      else if c = '\\' then ['\\', '\\']
      else [c])).flatten⟩

mutual

/-- Translation of `JSON.stringify` for the modelled JSON value domain. -/
def Json.stringify : Json → String
  | .null => "null"
  | .bool true => "true"
  | .bool false => "false"
  | .num n => toString n
  | .str s => "\"" ++ Json.escapeString s ++ "\""
  | .arr xs => "[" ++ String.intercalate "," (Json.stringifyList xs) ++ "]"
  | .obj fs => "\x7b" ++ String.intercalate "," (Json.stringifyFields fs) ++ "\x7d"

/-- Serialization of a JSON array's elements. -/
def Json.stringifyList : List Json → List String
  | [] => []
  | j :: t => Json.stringify j :: Json.stringifyList t

/-- Serialization of a JSON object's fields. -/
def Json.stringifyFields : List (String × Json) → List String
  | [] => []
  | f :: t =>
    ("\"" ++ Json.escapeString f.1 ++ "\":" ++ Json.stringify f.2) :: Json.stringifyFields t

end

/-- Translation of JavaScript `s.slice(0, n)` / `s.substring(0, n)`. -/
def jsTake (n : Nat) (s : String) : String := ⟨s.data.take n⟩

/-- Global single-character replacement: translation of
`text.replace(/c/g, rep)` for a one-character pattern `c`. -/
def replChar (c : Char) (rep : List Char) : List Char → List Char
  | [] => []
  | a :: t => (if a = c then rep else [a]) ++ replChar c rep t

/-- Translation of `HistoryReplayConverter.escapeXml` (character-identical
in both variants, `server.ts` 436-443 and `part_000` 201-208): five
chained global replacements, ampersand first. -/
def escapeXmlChars (s : List Char) : List Char :=
  replChar '\'' "&apos;".data
    (replChar '"' "&quot;".data
      (replChar '>' "&gt;".data
        (replChar '<' "&lt;".data
          (replChar '&' "&amp;".data s))))

/-- Specification-side per-character escape map: each of the five special
characters is replaced by its named escape sequence, all other characters
are kept. -/
def escCharSpec (c : Char) : List Char :=
  if c = '&' then "&amp;".data
  else if c = '<' then "&lt;".data
  else if c = '>' then "&gt;".data
  else if c = '"' then "&quot;".data
  else if c = '\'' then "&apos;".data
  else [c]

/-- Characterizes character sequences in which the five markup-sensitive
characters appear only as the head of one of the five named escape
sequences: any other character is kept verbatim and no literal `<`, `>`,
`"`, apostrophe or stray `&` occurs. -/
inductive EscapedList : List Char → Prop where
  | nil : EscapedList []
  | safe (c : Char) (rest : List Char) (h : c ∉ ['&', '<', '>', '"', '\''])
      (ih : EscapedList rest) : EscapedList (c :: rest)
  | amp (rest : List Char) (ih : EscapedList rest) :
      EscapedList ('&' :: 'a' :: 'm' :: 'p' :: ';' :: rest)
  | lt (rest : List Char) (ih : EscapedList rest) :
      EscapedList ('&' :: 'l' :: 't' :: ';' :: rest)
  | gt (rest : List Char) (ih : EscapedList rest) :
      EscapedList ('&' :: 'g' :: 't' :: ';' :: rest)
  | quot (rest : List Char) (ih : EscapedList rest) :
      EscapedList ('&' :: 'q' :: 'u' :: 'o' :: 't' :: ';' :: rest)
  | apos (rest : List Char) (ih : EscapedList rest) :
      EscapedList ('&' :: 'a' :: 'p' :: 'o' :: 's' :: ';' :: rest)

/-- Image source object (the `source` field of an `image` content block). -/
structure ImageSource where
  type : String
  media_type : Option String
  data : Option String
  url : Option String

/-- Result payload of a `tool_result` block: a string or a JSON array. -/
inductive ToolResultPayload where
  | str (s : String)
  | arr (items : List Json)

namespace Server

/-- Content blocks of the Messages API (`ContentBlock` union, `server.ts`
93-142). -/
inductive ContentBlock where
  | text (s : String)
  | thinking (s : String)
  | image (source : ImageSource)
  | tool_use (id : String) (name : String) (input : Option Json)
  | tool_result (tool_use_id : String) (content : Option ToolResultPayload)
      (is_error : Option Bool)

/-- Message content: a plain string or a list of content blocks. -/
inductive MsgContent where
  | str (s : String)
  | blocks (bs : List ContentBlock)

/-- One conversation turn (`Message`, `server.ts` 145-148). -/
structure Message where
  role : Role
  content : MsgContent

/-- Translation of the per-block rendering inside
`HistoryReplayConverter.extractTextContent` (`server.ts` 396-431); a block
may contribute zero or one line. -/
def extractBlockParts : ContentBlock → List String
  | .text s => [s]
  | .tool_use _ name input =>
    match input with
    | some j => ["[Used tool: " ++ name ++ " with input: " ++ jsTake 100 (Json.stringify j) ++ "]"]
    | none => ["[Used tool: " ++ name ++ "]"]
  | .tool_result _ content _ =>
    match content with
    | some (.str s) => ["[Tool result: " ++ jsTake 200 s ++ "...]"]
    | some (.arr items) => ["[Tool result: " ++ toString items.length ++ " items]"]
    | none => []
  | .image _ => ["[Image attached]"]
  | .thinking _ => []

/-- Translation of `HistoryReplayConverter.extractTextContent`
(`server.ts` 396-431): the textual projection of a turn used for history
replay. -/
def extractTextContent (msg : Message) : String :=
  match msg.content with
  | .str s => s
  | .blocks bs => String.intercalate "\n" (bs.map extractBlockParts).flatten

/-- Translation of `escapeXml` (`server.ts` 436-443). -/
def escapeXml (s : String) : String := ⟨escapeXmlChars s.data⟩

/-- Lines pushed for a user turn in the history block. -/
def userSpan (m : Message) : List String :=
  ["<user>", escapeXml (extractTextContent m), "</user>"]

/-- Lines pushed for an assistant turn in the history block. -/
def assistantSpan (m : Message) : List String :=
  ["<assistant>", escapeXml (extractTextContent m), "</assistant>"]

/-- Translation of the history scan of `buildConversationHistory`
(`server.ts` 266-297): a user turn directly followed by an assistant turn
is consumed as a pair, lone turns are rendered alone, other roles are
skipped. -/
def historyLines : List Message → List String
  | [] => []
  | [m] =>
    match m.role with
    | .user => userSpan m
    | .assistant => assistantSpan m
    | .system => []
  | m :: a :: rest2 =>
    match m.role with
    | .user =>
      if a.role = Role.assistant then
        userSpan m ++ assistantSpan a ++ historyLines rest2
      else
        userSpan m ++ historyLines (a :: rest2)
    | .assistant => assistantSpan m ++ historyLines (a :: rest2)
    | .system => historyLines (a :: rest2)

/-- Translation of `buildConversationHistory` (`server.ts` 257-302). -/
def buildConversationHistory (messages : List Message) : String :=
  String.intercalate "\n"
    (["<conversation_history>",
      "This is the previous conversation for context. You should be aware of it, but respond ONLY to the <current_question> below.",
      ""] ++ historyLines messages ++ ["</conversation_history>", ""])

/-- Output content block of the flattener: a text segment or an image
segment (the `contentBlocks` array of `processCurrentMessage`). -/
inductive OutBlock where
  | text (s : String)
  | image (source : ImageSource)

/-- Decides whether an output block is a text block. -/
def isTextOut : OutBlock → Bool
  | .text _ => true
  | .image _ => false

/-- Translation of the image block reconstruction in
`processCurrentMessage` (`server.ts` 378-388): the media type defaults to
`image/jpeg` when absent or empty (JavaScript `||`), and `data`/`url` are
kept only for the matching source kind. -/
def imageOut (src : ImageSource) : OutBlock :=
  .image
    { type := src.type
      media_type := some (match src.media_type with
        | some m => if m = "" then "image/jpeg" else m
        | none => "image/jpeg")
      data := if src.type = "base64" then src.data else none
      url := if src.type = "url" then src.url else none }

/-- Selector for `text` blocks, modelling the `case 'text'` push. -/
def textOf? : ContentBlock → Option String
  | .text s => some s
  | _ => none

/-- Selector for `image` blocks, modelling the `case 'image'` push. -/
def imageOf? : ContentBlock → Option ImageSource
  | .image s => some s
  | _ => none

/-- Selector for `tool_use` blocks, modelling the `case 'tool_use'` push. -/
def toolUseOf? : ContentBlock → Option (String × String × Option Json)
  | .tool_use i n inp => some (i, n, inp)
  | _ => none

/-- Selector for `tool_result` blocks, modelling the `case 'tool_result'`
push. -/
def toolResultOf? : ContentBlock → Option (String × Option ToolResultPayload)
  | .tool_result i c _ => some (i, c)
  | _ => none

/-- Translation of `processCurrentMessage` (`server.ts` 307-391). -/
def processCurrentMessage (msg : Message) : List OutBlock :=
  match msg.content with
  | .str s => [.text ("<current_question>\n" ++ s ++ "\n</current_question>")]
  | .blocks bs =>
    let textParts := bs.filterMap textOf?
    let images := bs.filterMap imageOf?
    let toolUses := bs.filterMap toolUseOf?
    let toolResults := bs.filterMap toolResultOf?
    let currentQuestionParts :=
      (if 0 < textParts.length then [String.intercalate "\n" textParts] else []) ++
      toolUses.map (fun t =>
        "[Previously used tool: " ++ t.2.1 ++ " with id=" ++ t.1 ++ "]") ++
      toolResults.map (fun t =>
        let resultText := match t.2 with
          | some (.str s) => s
          | some (.arr items) => Json.stringify (.arr items)
          | none => ""
        "[Tool result for " ++ t.1 ++ "]: " ++ jsTake 200 resultText)
    (if 0 < currentQuestionParts.length then
        [OutBlock.text ("<current_question>\n" ++
          String.intercalate "\n" currentQuestionParts ++ "\n</current_question>")]
      else []) ++ images.map imageOut

/-- The single SDK user message yielded by the flattener (`SDKUserMessage`
with its fixed `user` role and the synthesized content list). -/
structure SDKUserMessage where
  session_id : String
  content : List OutBlock

/-- Translation of `messagesToStreamingInput` (`server.ts` 207-252): an
empty input list yields no message at all, a non-`user` final turn raises,
and otherwise exactly one SDK user message is yielded, containing the
optional history block followed by the processed current turn. -/
def messagesToStreamingInput (messages : List Message) (sessionId : String) :
    Except String (List SDKUserMessage) :=
  match messages.getLast? with
  | none => .ok []
  | some current =>
    if current.role = Role.user then
      let history := messages.dropLast
      let historyBlocks : List OutBlock :=
        if 0 < history.length then [.text (buildConversationHistory history)] else []
      .ok [⟨sessionId, historyBlocks ++ processCurrentMessage current⟩]
    else .error "最后一条消息必须是 user 角色"

end Server

/-- Content-block kinds carried by a `content_block_start` engine event. -/
inductive BlockStartKind where
  | text
  | thinking
  | tool_use (id : String) (name : String) (input : Json)
  | other (t : String)

/-- Delta kinds carried by a `content_block_delta` engine event. -/
inductive DeltaKind where
  | text_delta (text : String)
  | thinking_delta (thinking : String)
  | other (t : String)

/-- Raw engine stream events (`RawMessageStreamEvent`), passed through to
the wire in streaming mode. -/
inductive RawEvent where
  | message_start
  | content_block_start (index : Nat) (block : BlockStartKind)
  | content_block_delta (index : Nat) (delta : DeltaKind)
  | content_block_stop (index : Nat)
  | message_delta
  | message_stop

/-- Usage counters carried by the terminal result event; fields may be
absent. -/
structure SDKUsage where
  input_tokens : Option Nat
  output_tokens : Option Nat

/-- Terminal result message of an engine invocation (`SDKResultMessage`). -/
structure SDKResult where
  subtype : String
  is_error : Bool
  usage : SDKUsage

/-- Content blocks of an assistant-authored SDK message. -/
inductive SDKBlock where
  | text (s : String)
  | thinking (s : String)
  | tool_use (id : String) (name : String) (input : Json)
  | other (t : String)

/-- Messages produced by the engine's event stream (`SDKMessage`). -/
inductive SDKMessage where
  | stream_event (event : RawEvent)
  | assistant (content : List SDKBlock)
  | result (r : SDKResult)
  | other (t : String)

/-- Content blocks of the client-facing response. -/
inductive ApiBlock where
  | text (s : String)
  | thinking (s : String)
  | tool_use (id : String) (name : String) (input : Json)

/-- Client-visible usage counters. -/
structure Usage where
  input_tokens : Nat
  output_tokens : Nat

/-- Non-streaming Messages API response (fields relevant to the claims). -/
structure MessagesResponse where
  id : String
  content : List ApiBlock
  model : String
  stop_reason : String
  usage : Usage

/-- One engine invocation as observed by the request handlers: either the
iteration of the event stream completes, yielding all events, or it raises
after a prefix of events. -/
inductive EngineRun where
  | events (evs : List SDKMessage)
  | raise (pre : List SDKMessage) (message : String)

/-- Records written to the SSE wire. -/
inductive WireRecord where
  | event (e : RawEvent)
  | errorEvent (message : String)

/-- Process-wide observability counters (`requestCount`, `successCount`,
`errorCount`). -/
structure Counters where
  requests : Nat
  success : Nat
  errors : Nat
deriving DecidableEq, Repr

/-- HTTP-level outcome of a request. -/
inductive HttpOutcome where
  | badRequest (message : String)
  | streamed (records : List WireRecord)
  | jsonOk (response : MessagesResponse)
  | serverError (message : String)

namespace Server

/-- JavaScript `x || 0` applied to an optional token counter. -/
def orZero : Option Nat → Nat
  | some n => n
  | none => 0

/-- Translation of `MessageConverter.sdkToApiContent` (`server.ts`
457-484): text, thinking and tool_use blocks are kept, anything else is
dropped. -/
def sdkToApiContent (blocks : List SDKBlock) : List ApiBlock :=
  blocks.filterMap (fun b => match b with
    | .text s => some (.text s)
    | .thinking s => some (.thinking s)
    | .tool_use i n inp => some (.tool_use i n inp)
    | .other _ => none)

/-- The content accumulated over all assistant messages in
`buildNonStreamingResponse` (`server.ts` 495-504). -/
def accumContent (assistantMessages : List SDKMessage) : List ApiBlock :=
  (assistantMessages.map (fun m => match m with
    | .assistant bs => sdkToApiContent bs
    | _ => [])).flatten

/-- Translation of `MessageConverter.buildNonStreamingResponse`
(`server.ts` 489-535): aggregate assistant content with an empty-text
fallback, map the stop reason, and default usage counters to zero. -/
def buildNonStreamingResponse (assistantMessages : List SDKMessage) (result : SDKResult)
    (model requestId : String) : MessagesResponse :=
  let allContent := accumContent assistantMessages
  let allContent := if allContent.length = 0 then [ApiBlock.text ""] else allContent
  let stopReason :=
    if result.subtype = "error_max_turns" then "max_tokens"
    else if result.is_error then "error"
    else "end_turn"
  { id := requestId
    content := allContent
    model := model
    stop_reason := stopReason
    usage := { input_tokens := orZero result.usage.input_tokens
               output_tokens := orZero result.usage.output_tokens } }

/-- The `stream_event` payloads of an engine message list. -/
def streamEventsOf (evs : List SDKMessage) : List RawEvent :=
  evs.filterMap (fun m => match m with
    | .stream_event e => some e
    | _ => none)

/-- Translation of the SSE loop of `handleStreamingWithHistoryReplay`
(`server.ts` 664-693): every `stream_event` is written through verbatim
with no per-index state; a failure while iterating is caught, a single
wire `error` event is written, and the handler returns normally either
way (the catch does not re-throw). -/
def handleStreaming (run : EngineRun) : List WireRecord :=
  match run with
  | .events evs => (streamEventsOf evs).map .event
  | .raise pre m => (streamEventsOf pre).map .event ++ [.errorEvent m]

/-- Decides whether an engine message is the terminal result message. -/
def isResultMsg : SDKMessage → Bool
  | .result _ => true
  | _ => false

/-- The last result message seen while iterating the stream
(`resultMessage` assignment, `server.ts` 729-735). -/
def lastResult (evs : List SDKMessage) : Option SDKResult :=
  evs.foldl (fun acc m => match m with
    | .result r => some r
    | _ => acc) none

/-- Translation of `handleNonStreamingWithHistoryReplay` (`server.ts`
702-761): collect assistant messages and the result message; a missing
result throws, otherwise the aggregated response is built. -/
def handleNonStreaming (evs : List SDKMessage) (model requestId : String) :
    Except String MessagesResponse :=
  let assistantMessages := evs.filter (fun m => match m with
    | .assistant _ => true
    | _ => false)
  match lastResult evs with
  | none => .error "未收到结果消息"
  | some r => .ok (buildNonStreamingResponse assistantMessages r model requestId)

/-- The non-streaming handler as seen from the route: an exception raised
while iterating the engine stream propagates out of the handler. -/
def runNonStreaming (run : EngineRun) (model requestId : String) :
    Except String MessagesResponse :=
  match run with
  | .raise _ m => .error m
  | .events evs => handleNonStreaming evs model requestId

/-- Decides whether the final turn of a request has role `user`
(`body.messages[body.messages.length - 1].role !== 'user'`,
`server.ts` 845). -/
def lastIsUser (msgs : List Message) : Bool :=
  match msgs.getLast? with
  | some m => if m.role = Role.user then true else false
  | none => false

/-- Translation of the `/v1/messages` route (`server.ts` 814-891): request
counter increment, the two validation checks (each incrementing the
failure counter and returning 400), dispatch to the streaming or
non-streaming handler, and the success/failure counter updates.  The
streaming handler never throws, so after a streaming failure control
reaches the success increment. -/
def postMessages (msgs : List Message) (isStream : Bool) (run : EngineRun)
    (model requestId : String) (c : Counters) : Counters × HttpOutcome :=
  let c1 : Counters := { c with requests := c.requests + 1 }
  if msgs.length = 0 then
    ({ c1 with errors := c1.errors + 1 }, .badRequest "messages 不能为空")
  else if lastIsUser msgs = false then
    ({ c1 with errors := c1.errors + 1 }, .badRequest "最后一条消息必须是 user 角色")
  else if isStream then
    ({ c1 with success := c1.success + 1 }, .streamed (handleStreaming run))
  else
    match runNonStreaming run model requestId with
    | .ok r => ({ c1 with success := c1.success + 1 }, .jsonOk r)
    | .error m => ({ c1 with errors := c1.errors + 1 }, .serverError m)

end Server

namespace Bun

/-- Content blocks of the Bun variant (`ContentBlock` union, `part_000`
82-87); the `tool_result` payload is required there. -/
inductive ContentBlock where
  | text (s : String)
  | image (source : ImageSource)
  | tool_use (id : String) (name : String) (input : Json)
  | tool_result (tool_use_id : String) (content : ToolResultPayload)
      (is_error : Option Bool)
  | thinking (s : String)

/-- Message content of the Bun variant. -/
inductive MsgContent where
  | str (s : String)
  | blocks (bs : List ContentBlock)

/-- One conversation turn of the Bun variant (`Message`, `part_000`
77-80); the role may also be `system`. -/
structure Message where
  role : Role
  content : MsgContent

/-- Preview of a `tool_result` payload (`part_000` 185-187): strings are
truncated to 200 characters, arrays are serialized with `JSON.stringify`
first and then truncated to 200 characters. -/
def previewOf : ToolResultPayload → String
  | .str s => jsTake 200 s
  | .arr items => jsTake 200 (Json.stringify (.arr items))

/-- Translation of the per-block rendering in the Bun variant's
`extractTextContent` (`part_000` 172-199). -/
def renderBlock : ContentBlock → String
  | .text s => s
  | .tool_use id name _ => "[Used tool: " ++ name ++ " with id=" ++ id ++ "]"
  | .tool_result id c _ => "[Tool result for " ++ id ++ "]: " ++ previewOf c
  | .image _ => "[Image attached]"
  | .thinking t => "[Thinking: " ++ jsTake 100 t ++ "...]"

/-- The rendered block lines kept by `.filter(Boolean)` (empty strings are
falsy and dropped). -/
def projParts (bs : List ContentBlock) : List String :=
  (bs.map renderBlock).filter (fun s => !(s == ""))

/-- Translation of the Bun variant's `extractTextContent` (`part_000`
172-199). -/
def extractTextContent (msg : Message) : String :=
  match msg.content with
  | .str s => s
  | .blocks bs => String.intercalate "\n" (projParts bs)

/-- Translation of `escapeXml` (`part_000` 201-208, character-identical to
the Express variant's). -/
def escapeXml (s : String) : String := ⟨escapeXmlChars s.data⟩

/-- Translation of `convertMessagesToPrompt` (`part_000` 132-170): empty
list and non-`user` final turn raise; history turns are wrapped in
escaped role-tagged spans (system turns skipped), the current turn is
appended unescaped inside the current-question block. -/
def convertMessagesToPrompt (messages : List Message) : Except String String :=
  match messages.getLast? with
  | none => .error "Messages array cannot be empty"
  | some current =>
    if current.role = Role.user then
      let history := messages.dropLast
      let histParts : List String :=
        if 0 < history.length then
          ["<conversation_history>",
           "This is the previous conversation for context. You should be aware of it,",
           "but respond ONLY to the <current_question> below.",
           ""] ++
          (history.map (fun m =>
            match m.role with
            | .system => []
            | .user => ["<user>", escapeXml (extractTextContent m), "</user>"]
            | .assistant => ["<assistant>", escapeXml (extractTextContent m), "</assistant>"])).flatten ++
          ["</conversation_history>", ""]
        else []
      .ok (String.intercalate "\n"
        (histParts ++ ["<current_question>", extractTextContent current, "</current_question>"]))
    else .error "The last message must be from user role"

/-- Decides whether the final turn of a Bun-variant request has role
`user`. -/
def lastIsUser (msgs : List Message) : Bool :=
  match msgs.getLast? with
  | some m => if m.role = Role.user then true else false
  | none => false

/-- New content block pushed on `content_block_start` in the Bun
non-streaming branch (`part_000` 469-483). -/
def applyStart (blocks : List ApiBlock) (b : BlockStartKind) : List ApiBlock :=
  match b with
  | .text => blocks ++ [.text ""]
  | .thinking => blocks ++ [.thinking ""]
  | .tool_use i n inp => blocks ++ [.tool_use i n inp]
  | .other _ => blocks

/-- Delta application on `content_block_delta` in the Bun non-streaming
branch (`part_000` 485-494): text appended only when the indexed block is
a text block, thinking only when it is a thinking block. -/
def applyDelta (blocks : List ApiBlock) (index : Nat) (d : DeltaKind) : List ApiBlock :=
  match d, blocks[index]? with
  | .text_delta t, some (.text s) => blocks.set index (.text (s ++ t))
  | .thinking_delta t, some (.thinking s) => blocks.set index (.thinking (s ++ t))
  | _, _ => blocks

/-- Mutable state of the Bun non-streaming loop (`contentBlocks`, `usage`,
`stopReason`). -/
structure AggState where
  blocks : List ApiBlock
  usage : Usage
  stop_reason : String

/-- One iteration of the Bun non-streaming loop (`part_000` 465-511). -/
def aggStep (st : AggState) (m : SDKMessage) : AggState :=
  match m with
  | .stream_event (.content_block_start _ b) => { st with blocks := applyStart st.blocks b }
  | .stream_event (.content_block_delta i d) => { st with blocks := applyDelta st.blocks i d }
  | .result r =>
    { st with
      usage := { input_tokens := Server.orZero r.usage.input_tokens
                 output_tokens := Server.orZero r.usage.output_tokens }
      stop_reason := if r.is_error then "error" else st.stop_reason }
  | _ => st

/-- The state after folding the whole engine stream. -/
def aggState (evs : List SDKMessage) : AggState :=
  evs.foldl aggStep
    { blocks := [], usage := { input_tokens := 0, output_tokens := 0 }, stop_reason := "end_turn" }

/-- Translation of the Bun non-streaming branch's response construction
(`part_000` 513-521): the accumulated blocks with an empty-text fallback;
no check that a terminal result was ever observed. -/
def aggregateNonStreaming (evs : List SDKMessage) (model requestId : String) :
    MessagesResponse :=
  let st := aggState evs
  { id := requestId
    content := if 0 < st.blocks.length then st.blocks else [.text ""]
    model := model
    stop_reason := st.stop_reason
    usage := st.usage }

/-- Counter and outcome flow of the Bun non-streaming branch (`part_000`
454-541): normal completion returns the aggregated response as a 200 and
increments the success counter; only a raised exception produces a 500 and
increments the failure counter. -/
def nonStreamingRoute (run : EngineRun) (model requestId : String) (c : Counters) :
    Counters × HttpOutcome :=
  match run with
  | .events evs =>
    ({ c with success := c.success + 1 }, .jsonOk (aggregateNonStreaming evs model requestId))
  | .raise _ m => ({ c with errors := c.errors + 1 }, .serverError m)

/-- Client-facing streamed events of the Bun variant (`formatSSE` writes). -/
inductive BWireEvent where
  | message_start
  | passthrough (e : RawEvent)
  | result_delta (stop_reason : String) (usage : SDKUsage)
  | assistant_message
  | message_stop
  | error (message : String)

/-- Translation of `convertSDKMessageToEvent` (`part_000` 214-235):
stream events pass through, results become a `message_delta`, assistant
messages become an `assistant_message`, anything else becomes null. -/
def convertSDKMessageToEvent : SDKMessage → Option BWireEvent
  | .stream_event e => some (.passthrough e)
  | .result r => some (.result_delta (if r.is_error then "error" else "end_turn") r.usage)
  | .assistant _ => some .assistant_message
  | .other _ => none

/-- Counter and wire flow of the Bun streaming branch (`part_000`
394-449): `message_start` first, converted events in order, then
`message_stop` and a success increment on completion; on a raised
exception the catch increments the failure counter and writes a single
wire `error` event. -/
def streamingRoute (run : EngineRun) (c : Counters) : Counters × List BWireEvent :=
  match run with
  | .events evs =>
    ({ c with success := c.success + 1 },
     .message_start :: evs.filterMap convertSDKMessageToEvent ++ [.message_stop])
  | .raise pre m =>
    ({ c with errors := c.errors + 1 },
     .message_start :: pre.filterMap convertSDKMessageToEvent ++ [.error m])

end Bun

/-- Decides whether a request outcome is a request-validation failure
(HTTP 400). -/
def isBadRequest : HttpOutcome → Bool
  | .badRequest _ => true
  | _ => false

/-- Decides whether an engine run raises while being iterated. -/
def isRaise : EngineRun → Bool
  | .raise _ _ => true
  | .events _ => false

namespace Server

/-- Specification-side predicate: blocks of the current turn that
contribute a line to the current-question block (`text`, `tool_use`,
`tool_result`). -/
def contributesToQuestion : ContentBlock → Bool
  | .text _ => true
  | .tool_use _ _ _ => true
  | .tool_result _ _ _ => true
  | _ => false

/-- Specification-side predicate: the current turn yields a
current-question text block (plain-string content always does; structured
content does iff some block contributes to the question). -/
def hasCQText (msg : Message) : Bool :=
  match msg.content with
  | .str _ => true
  | .blocks bs => bs.any contributesToQuestion

/-- The image sources carried by a turn's structured content. -/
def imagesOfMsg (msg : Message) : List ImageSource :=
  match msg.content with
  | .str _ => []
  | .blocks bs => bs.filterMap imageOf?

/-- Shape of the flattener's output asserted for accepted requests: one
yielded turn whose content is an optional single history text block
(present exactly when the request has more than one turn), followed by at
most one current-question text block (present exactly when the current
turn has renderable question content), followed by the current turn's
image segments with source kind preserved and a present non-empty media
type preserved. -/
def FlattenedShape (msgs : List Message) (sessionId : String) (cur : Message) : Prop :=
  ∃ hist cq : List OutBlock,
    messagesToStreamingInput msgs sessionId =
      .ok [⟨sessionId, hist ++ cq ++ (imagesOfMsg cur).map imageOut⟩]
    ∧ (∀ b ∈ hist, isTextOut b = true) ∧ hist.length ≤ 1
    ∧ (hist ≠ [] ↔ 1 < msgs.length)
    ∧ (∀ b ∈ cq, isTextOut b = true) ∧ cq.length ≤ 1
    ∧ (cq ≠ [] ↔ hasCQText cur = true)
    ∧ (∀ b ∈ (imagesOfMsg cur).map imageOut, isTextOut b = false)
    ∧ (∀ src ∈ imagesOfMsg cur, ∃ out : ImageSource,
        imageOut src = OutBlock.image out
        ∧ out.type = src.type
        ∧ (∀ m, src.media_type = some m → m ≠ "" → out.media_type = some m))

end Server
/-- Length bound for `jsTake`: a truncated string has at most `n` characters. -/
theorem jsTake_length_le (n : Nat) (s : String) : (jsTake n s).data.length ≤ n := by
  simp [jsTake]

theorem replChar_append (c : Char) (rep : List Char) (x y : List Char) :
    replChar c rep (x ++ y) = replChar c rep x ++ replChar c rep y := by
  induction x with
  | nil => simp [replChar]
  | cons a t ih => simp [replChar, ih]

theorem escape_head (a : Char) :
    replChar '\'' "&apos;".data
      (replChar '"' "&quot;".data
        (replChar '>' "&gt;".data
          (replChar '<' "&lt;".data
            (if a = '&' then "&amp;".data else [a])))) = escCharSpec a := by
  by_cases h1 : a = '&'
  · subst h1; decide
  · rw [if_neg h1]
    by_cases h2 : a = '<'
    · subst h2; simp [escCharSpec, h1]; decide
    · by_cases h3 : a = '>'
      · subst h3; simp [escCharSpec, h1, h2]; decide
      · by_cases h4 : a = '"'
        · subst h4; simp [escCharSpec, h1, h2, h3]; decide
        · by_cases h5 : a = '\''
          · subst h5; simp [escCharSpec, h1, h2, h3, h4]; decide
          · simp [replChar, escCharSpec, h1, h2, h3, h4, h5]

theorem escapeXmlChars_cons (a : Char) (t : List Char) :
    escapeXmlChars (a :: t) = escCharSpec a ++ escapeXmlChars t := by
  have h : replChar '&' "&amp;".data (a :: t)
      = (if a = '&' then "&amp;".data else [a]) ++ replChar '&' "&amp;".data t := by
    simp [replChar]
  unfold escapeXmlChars
  rw [h, replChar_append, replChar_append, replChar_append, replChar_append, escape_head]

/-- The chained replacements of `escapeXml` act exactly as the per-character
escape map: every special character is replaced by its named escape, and
nothing else is touched. -/
theorem escapeXmlChars_eq_spec (l : List Char) :
    escapeXmlChars l = (l.map escCharSpec).flatten := by
  induction l with
  | nil => rfl
  | cons a t ih => rw [escapeXmlChars_cons, ih]; simp

theorem escapedList_append_escChar (a : Char) (l : List Char) (h : EscapedList l) :
    EscapedList (escCharSpec a ++ l) := by
  by_cases h1 : a = '&'
  · subst h1
    show EscapedList ("&amp;".data ++ l)
    exact EscapedList.amp l h
  · by_cases h2 : a = '<'
    · subst h2
      show EscapedList ("&lt;".data ++ l)
      exact EscapedList.lt l h
    · by_cases h3 : a = '>'
      · subst h3
        show EscapedList ("&gt;".data ++ l)
        exact EscapedList.gt l h
      · by_cases h4 : a = '"'
        · subst h4
          show EscapedList ("&quot;".data ++ l)
          exact EscapedList.quot l h
        · by_cases h5 : a = '\''
          · subst h5
            show EscapedList ("&apos;".data ++ l)
            exact EscapedList.apos l h
          · have : escCharSpec a = [a] := by
              simp [escCharSpec, h1, h2, h3, h4, h5]
            rw [this]
            exact EscapedList.safe a l (by simp [h1, h2, h3, h4, h5]) h

/-- Every escaped string is in escaped form: the five special characters
occur only inside named escape sequences. -/
theorem escapedList_escapeXmlChars (l : List Char) : EscapedList (escapeXmlChars l) := by
  induction l with
  | nil => exact EscapedList.nil
  | cons a t ih =>
    rw [escapeXmlChars_cons]
    exact escapedList_append_escChar a _ ih

theorem cq_sources_iff (bs : List Server.ContentBlock) :
    (0 < (bs.filterMap Server.textOf?).length ∨ 0 < (bs.filterMap Server.toolUseOf?).length ∨
      0 < (bs.filterMap Server.toolResultOf?).length)
      ↔ bs.any Server.contributesToQuestion = true := by
  induction bs with
  | nil => simp
  | cons b t ih =>
    cases b <;>
      simp only [Server.textOf?, Server.toolUseOf?, Server.toolResultOf?,
        Server.contributesToQuestion, List.filterMap_cons, List.any_cons,
        Bool.true_or, Bool.false_or, List.length_cons] <;>
      simp_all

theorem filterMaps_nil_of_not_any (bs : List Server.ContentBlock)
    (hq : bs.any Server.contributesToQuestion = false) :
    bs.filterMap Server.textOf? = [] ∧ bs.filterMap Server.toolUseOf? = []
      ∧ bs.filterMap Server.toolResultOf? = [] := by
  induction bs with
  | nil => simp
  | cons b t ih =>
    simp only [List.any_cons, Bool.or_eq_false_iff] at hq
    have ht := ih hq.2
    cases b <;> simp_all [Server.contributesToQuestion, Server.textOf?,
      Server.toolUseOf?, Server.toolResultOf?, List.filterMap_cons]

theorem processCurrent_none (msg : Server.Message) (bs : List Server.ContentBlock)
    (h : msg.content = Server.MsgContent.blocks bs)
    (hq : bs.any Server.contributesToQuestion = false) :
    Server.processCurrentMessage msg = (bs.filterMap Server.imageOf?).map Server.imageOut := by
  obtain ⟨h1, h2, h3⟩ := filterMaps_nil_of_not_any bs hq
  simp [Server.processCurrentMessage, h, h1, h2, h3]

theorem processCurrent_any (msg : Server.Message) (bs : List Server.ContentBlock)
    (h : msg.content = Server.MsgContent.blocks bs)
    (hq : bs.any Server.contributesToQuestion = true) :
    ∃ s, Server.processCurrentMessage msg
      = Server.OutBlock.text s :: (bs.filterMap Server.imageOf?).map Server.imageOut := by
  have hdisj := (cq_sources_iff bs).mpr hq
  simp only [Server.processCurrentMessage, h]
  have hcond : 0 < ((if 0 < (bs.filterMap Server.textOf?).length then
        [String.intercalate "\n" (bs.filterMap Server.textOf?)] else []) ++
      (bs.filterMap Server.toolUseOf?).map (fun t =>
        "[Previously used tool: " ++ t.2.1 ++ " with id=" ++ t.1 ++ "]") ++
      (bs.filterMap Server.toolResultOf?).map (fun t =>
        let resultText := match t.2 with
          | some (.str s) => s
          | some (.arr items) => Json.stringify (.arr items)
          | none => ""
        "[Tool result for " ++ t.1 ++ "]: " ++ jsTake 200 resultText)).length := by
    simp only [List.length_append, List.length_map]
    rcases hdisj with h1 | h1 | h1
    · rw [if_pos h1]; simp
    · omega
    · omega
  rw [if_pos hcond]
  exact ⟨_, rfl⟩

theorem processCurrent_shape (msg : Server.Message) :
    ∃ cq : List Server.OutBlock,
      Server.processCurrentMessage msg = cq ++ (Server.imagesOfMsg msg).map Server.imageOut
      ∧ (∀ b ∈ cq, Server.isTextOut b = true) ∧ cq.length ≤ 1
      ∧ (cq ≠ [] ↔ Server.hasCQText msg = true) := by
  match h : msg.content with
  | .str s =>
    refine ⟨[.text ("<current_question>\n" ++ s ++ "\n</current_question>")], ?_, ?_, ?_, ?_⟩
    · simp [Server.processCurrentMessage, Server.imagesOfMsg, h]
    · intro b hb; simp at hb; subst hb; rfl
    · simp
    · simp [Server.hasCQText, h]
  | .blocks bs =>
    by_cases hq : bs.any Server.contributesToQuestion = true
    · obtain ⟨s, hs⟩ := processCurrent_any msg bs h hq
      refine ⟨[.text s], ?_, ?_, ?_, ?_⟩
      · rw [hs]; simp [Server.imagesOfMsg, h]
      · intro b hb; simp at hb; subst hb; rfl
      · simp
      · simp [Server.hasCQText, h, hq]
    · have hq2 : bs.any Server.contributesToQuestion = false := by
        simpa using hq
      refine ⟨[], ?_, ?_, ?_, ?_⟩
      · rw [processCurrent_none msg bs h hq2]; simp [Server.imagesOfMsg, h]
      · simp
      · simp
      · simp [Server.hasCQText, h, hq2]

theorem flatten_eq (msgs : List Server.Message) (sid : String) (cur : Server.Message)
    (h1 : msgs.getLast? = some cur) (h2 : cur.role = Role.user) :
    Server.messagesToStreamingInput msgs sid =
      .ok [⟨sid,
        (if 0 < msgs.dropLast.length then
          [Server.OutBlock.text (Server.buildConversationHistory msgs.dropLast)] else [])
        ++ Server.processCurrentMessage cur⟩] := by
  simp [Server.messagesToStreamingInput, h1, h2]

/-- C1: for every accepted request, the flattener yields exactly one SDK
user message whose content is, in order, an optional history text block
(present exactly when the request has more than one turn), then at most
one current-question text block (present exactly when the current turn
has renderable question content — not always, contrary to the original
claim), then the current turn's image segments, whose encoding kind is
preserved and whose media type is preserved when present and non-empty
(an absent media type is rewritten to `image/jpeg`). -/
theorem C1_flattener_output_shape (msgs : List Server.Message) (sid : String)
    (cur : Server.Message) (h1 : msgs.getLast? = some cur)
    (h2 : cur.role = Role.user) :
    Server.FlattenedShape msgs sid cur := by
  obtain ⟨cq, hpc, hcqtext, hcqlen, hcqiff⟩ := processCurrent_shape cur
  refine ⟨(if 0 < msgs.dropLast.length then
      [Server.OutBlock.text (Server.buildConversationHistory msgs.dropLast)] else []),
    cq, ?_, ?_, ?_, ?_, hcqtext, hcqlen, hcqiff, ?_, ?_⟩
  · rw [flatten_eq msgs sid cur h1 h2, hpc, List.append_assoc]
  · intro b hb
    split at hb
    · simp at hb; subst hb; rfl
    · simp at hb
  · split <;> simp
  · have hdl : msgs.dropLast.length = msgs.length - 1 := by simp
    by_cases hc : 0 < msgs.dropLast.length
    · rw [if_pos hc]; simp; omega
    · rw [if_neg hc]; simp; omega
  · intro b hb
    simp only [List.mem_map] at hb
    obtain ⟨src, _, hb⟩ := hb
    subst hb
    rfl
  · intro src _
    refine ⟨_, rfl, rfl, fun m hm hne => ?_⟩
    simp [Server.imageOut, hm, hne]

/-- C1 counterexample: an accepted single-turn request whose current turn
is a single image segment without a media type is flattened with no
current-question text block at all, and the image's media type is
rewritten to `image/jpeg` rather than kept unchanged. -/
theorem C1_counterexample :
    Server.messagesToStreamingInput
        [⟨Role.user, Server.MsgContent.blocks
            [Server.ContentBlock.image ⟨"base64", none, some "AA", none⟩]⟩] "s"
      = .ok [⟨"s", [Server.OutBlock.image ⟨"base64", some "image/jpeg", some "AA", none⟩]⟩]
    ∧ (∀ b ∈ [Server.OutBlock.image ⟨"base64", some "image/jpeg", some "AA", none⟩],
        Server.isTextOut b = false)
    ∧ (some "image/jpeg" ≠ (none : Option String)) := by
  refine ⟨rfl, ?_, by simp⟩
  intro b hb
  simp at hb
  subst hb
  rfl

/-- Witness for C1 at a concrete single-turn request. -/
theorem C1_flattener_output_shape_witness :
    ([⟨Role.user, Server.MsgContent.str "Hi"⟩] : List Server.Message).getLast?
        = some ⟨Role.user, Server.MsgContent.str "Hi"⟩
    ∧ (⟨Role.user, Server.MsgContent.str "Hi"⟩ : Server.Message).role = Role.user
    ∧ Server.FlattenedShape [⟨Role.user, Server.MsgContent.str "Hi"⟩] "s"
        ⟨Role.user, Server.MsgContent.str "Hi"⟩ :=
  ⟨rfl, rfl, C1_flattener_output_shape _ _ _ rfl rfl⟩

/-- C10: if the current turn's structured content contains no text,
tool_invocation or tool_outcome segment, the flattener emits no
current-question text block: the output content is the optional history
block followed directly by the image segments. -/
theorem C10_image_only_current (msgs : List Server.Message) (sid : String)
    (cur : Server.Message) (bs : List Server.ContentBlock)
    (h1 : msgs.getLast? = some cur) (h2 : cur.role = Role.user)
    (h3 : cur.content = Server.MsgContent.blocks bs)
    (h4 : ∀ b ∈ bs, Server.contributesToQuestion b = false) :
    Server.messagesToStreamingInput msgs sid =
      .ok [⟨sid,
        (if 0 < msgs.dropLast.length then
          [Server.OutBlock.text (Server.buildConversationHistory msgs.dropLast)] else [])
        ++ (bs.filterMap Server.imageOf?).map Server.imageOut⟩]
    ∧ ∀ b ∈ (bs.filterMap Server.imageOf?).map Server.imageOut,
        Server.isTextOut b = false := by
  have hq : bs.any Server.contributesToQuestion = false := by
    rw [List.any_eq_false]
    intro x hx
    simp [h4 x hx]
  constructor
  · rw [flatten_eq msgs sid cur h1 h2, processCurrent_none cur bs h3 hq]
  · intro b hb
    simp only [List.mem_map] at hb
    obtain ⟨src, _, hb⟩ := hb
    subst hb
    rfl

/-- Witness for C10 at a concrete image-only request. -/
theorem C10_image_only_current_witness :
    (∀ b ∈ [Server.ContentBlock.image ⟨"url", some "image/png", none, some "u"⟩],
        Server.contributesToQuestion b = false)
    ∧ ∀ b ∈ (([Server.ContentBlock.image ⟨"url", some "image/png", none, some "u"⟩] :
          List Server.ContentBlock).filterMap Server.imageOf?).map Server.imageOut,
        Server.isTextOut b = false := by
  have h4 : ∀ b ∈ [Server.ContentBlock.image ⟨"url", some "image/png", none, some "u"⟩],
      Server.contributesToQuestion b = false := by
    intro b hb; simp at hb; subst hb; rfl
  exact ⟨h4,
    (C10_image_only_current
      [⟨Role.user, Server.MsgContent.blocks
          [Server.ContentBlock.image ⟨"url", some "image/png", none, some "u"⟩]⟩] "s"
      ⟨Role.user, Server.MsgContent.blocks
          [Server.ContentBlock.image ⟨"url", some "image/png", none, some "u"⟩]⟩
      [Server.ContentBlock.image ⟨"url", some "image/png", none, some "u"⟩]
      rfl rfl rfl h4).2⟩

/-- C2: a request whose turn list is empty or does not end in a `user`
turn fails validation with HTTP 400 in the Express route (and raises the
corresponding validation error in the Bun converter) without the engine
run influencing the outcome; every non-empty list ending in a `user` turn
passes validation. -/
theorem C2_validation (msgs : List Server.Message) (isStream : Bool)
    (run run2 : EngineRun) (model requestId : String) (c : Counters)
    (bmsgs : List Bun.Message) :
    (isBadRequest (Server.postMessages msgs isStream run model requestId c).2 = true
        ↔ (msgs = [] ∨ Server.lastIsUser msgs = false))
    ∧ ((msgs = [] ∨ Server.lastIsUser msgs = false) →
        Server.postMessages msgs isStream run model requestId c
          = Server.postMessages msgs isStream run2 model requestId c)
    ∧ ((Bun.convertMessagesToPrompt bmsgs).isOk = false
        ↔ (bmsgs = [] ∨ Bun.lastIsUser bmsgs = false)) := by
  refine ⟨?_, ?_, ?_⟩
  · by_cases h0 : msgs.length = 0
    · have he : msgs = [] := List.length_eq_zero.mp h0
      simp [Server.postMessages, h0, he, isBadRequest]
    · have hne : msgs ≠ [] := fun hcon => h0 (by simp [hcon])
      by_cases hu : Server.lastIsUser msgs = false
      · simp [Server.postMessages, h0, hu, isBadRequest]
      · have hu2 : Server.lastIsUser msgs = true := by
          cases hb : Server.lastIsUser msgs
          · exact absurd hb hu
          · rfl
        by_cases hs : isStream
        · simp [Server.postMessages, h0, hu2, hs, isBadRequest, hne]
        · cases hrun : Server.runNonStreaming run model requestId with
          | ok r => simp [Server.postMessages, h0, hu2, hs, hrun, isBadRequest, hne]
          | error m => simp [Server.postMessages, h0, hu2, hs, hrun, isBadRequest, hne]
  · intro h
    by_cases h0 : msgs.length = 0
    · simp [Server.postMessages, h0]
    · rcases h with h | h
      · exact absurd (by simp [h]) h0
      · simp [Server.postMessages, h0, h]
  · cases hl : bmsgs.getLast? with
    | none =>
      have he : bmsgs = [] := by
        cases bmsgs with
        | nil => rfl
        | cons x xs => simp [List.getLast?_concat] at hl
      simp [Bun.convertMessagesToPrompt, hl, he, Except.isOk, Except.toBool]
    | some cur =>
      have hne : bmsgs ≠ [] := by
        intro hcon
        subst hcon
        simp at hl
      by_cases hr : cur.role = Role.user
      · simp [Bun.convertMessagesToPrompt, hl, hr, Bun.lastIsUser, hne, Except.isOk, Except.toBool]
      · simp [Bun.convertMessagesToPrompt, hl, hr, Bun.lastIsUser, hne, Except.isOk, Except.toBool]

/-- Witness for C2: a turn list ending in an assistant turn is rejected by
the Express route, and the empty list is rejected by the Bun converter. -/
theorem C2_validation_witness :
    isBadRequest (Server.postMessages [⟨Role.assistant, Server.MsgContent.str "a"⟩]
        false (.events []) "m" "id" ⟨0, 0, 0⟩).2 = true
    ∧ (Bun.convertMessagesToPrompt []).isOk = false :=
  ⟨(C2_validation [⟨Role.assistant, Server.MsgContent.str "a"⟩] false (.events [])
      (.events []) "m" "id" ⟨0, 0, 0⟩ []).1.mpr (Or.inr rfl),
   (C2_validation [⟨Role.assistant, Server.MsgContent.str "a"⟩] false (.events [])
      (.events []) "m" "id" ⟨0, 0, 0⟩ []).2.2.mpr (Or.inl rfl)⟩

/-- C3: for every history turn, the escaped textual projection used in the
history block replaces each ampersand, `<`, `>`, double-quote and
single-quote by its named escape sequence (character-by-character), and
the result is in escaped form: the five characters survive only inside
named escape sequences.  This holds in both variants. -/
theorem C3_history_escaping (msg : Server.Message) (bm : Bun.Message) :
    Server.escapeXml (Server.extractTextContent msg)
        = ⟨((Server.extractTextContent msg).data.map escCharSpec).flatten⟩
    ∧ EscapedList (Server.escapeXml (Server.extractTextContent msg)).data
    ∧ Bun.escapeXml (Bun.extractTextContent bm)
        = ⟨((Bun.extractTextContent bm).data.map escCharSpec).flatten⟩
    ∧ EscapedList (Bun.escapeXml (Bun.extractTextContent bm)).data := by
  refine ⟨?_, ?_, ?_, ?_⟩
  · simp [Server.escapeXml, escapeXmlChars_eq_spec]
  · exact escapedList_escapeXmlChars _
  · simp [Bun.escapeXml, escapeXmlChars_eq_spec]
  · exact escapedList_escapeXmlChars _

/-- C4 (amended): the streaming translator keeps no per-index open-block
state and passes every engine `stream_event` through as exactly one wire
event, so a replayed `content_block_start` for an already-open index is
re-emitted as an additional wire event rather than suppressed; the Bun
converter likewise maps every stream event to a wire event. -/
theorem C4_stream_passthrough (evs : List SDKMessage) (e : RawEvent) :
    Server.handleStreaming (.events (evs ++ [.stream_event e]))
      = Server.handleStreaming (.events evs) ++ [.event e]
    ∧ (Server.handleStreaming (.events evs)).length
        = (Server.streamEventsOf evs).length
    ∧ Bun.convertSDKMessageToEvent (.stream_event e) = some (.passthrough e) := by
  refine ⟨?_, ?_, rfl⟩
  · simp [Server.handleStreaming, Server.streamEventsOf, List.filterMap_append]
  · simp [Server.handleStreaming]

/-- C4 counterexample: replaying an identical `content_block_start` for
index 0 produces a second wire event — the output for the replayed stream
has two events where the claim demands one. -/
theorem C4_counterexample :
    Server.handleStreaming (.events [.stream_event (.content_block_start 0 .text),
        .stream_event (.content_block_start 0 .text)])
      = [.event (.content_block_start 0 .text), .event (.content_block_start 0 .text)]
    ∧ (Server.handleStreaming (.events [.stream_event (.content_block_start 0 .text),
        .stream_event (.content_block_start 0 .text)])).length = 2
    ∧ (Server.handleStreaming (.events [.stream_event (.content_block_start 0 .text)])).length
        = 1 :=
  ⟨rfl, rfl, rfl⟩

theorem lastResult_eq_none (evs : List SDKMessage)
    (h : ∀ m ∈ evs, Server.isResultMsg m = false) : Server.lastResult evs = none := by
  induction evs with
  | nil => rfl
  | cons m t ih =>
    have hm := h m (by simp)
    have ht : ∀ x ∈ t, Server.isResultMsg x = false := fun x hx => h x (by simp [hx])
    cases m with
    | result r => simp [Server.isResultMsg] at hm
    | stream_event e => simpa [Server.lastResult] using ih ht
    | assistant cnt => simpa [Server.lastResult] using ih ht
    | other s => simpa [Server.lastResult] using ih ht

/-- C5 (amended to the Express variant): in aggregated mode the Express
handler fails hard when the engine stream ends without a terminal result
— the route surfaces the engine-protocol error as a 500 and increments
the failure counter, and no partial response is returned as success.
(The Bun variant diverges; see the counterexample.) -/
theorem C5_missing_result_fails (msgs : List Server.Message) (evs : List SDKMessage)
    (model requestId : String) (c : Counters)
    (hmsgs : Server.lastIsUser msgs = true)
    (hnores : ∀ m ∈ evs, Server.isResultMsg m = false) :
    Server.handleNonStreaming evs model requestId = .error "未收到结果消息"
    ∧ Server.postMessages msgs false (.events evs) model requestId c
        = ({ requests := c.requests + 1, success := c.success, errors := c.errors + 1 },
           .serverError "未收到结果消息") := by
  have hlast := lastResult_eq_none evs hnores
  have h1 : Server.handleNonStreaming evs model requestId = .error "未收到结果消息" := by
    simp [Server.handleNonStreaming, hlast]
  refine ⟨h1, ?_⟩
  have h0 : ¬ msgs.length = 0 := by
    intro hcon
    have he := List.length_eq_zero.mp hcon
    subst he
    simp [Server.lastIsUser] at hmsgs
  simp [Server.postMessages, h0, hmsgs, Server.runNonStreaming, h1]

/-- Witness for C5 at a concrete request with an empty engine stream. -/
theorem C5_missing_result_fails_witness :
    Server.lastIsUser [⟨Role.user, Server.MsgContent.str "q"⟩] = true
    ∧ Server.handleNonStreaming [] "m" "id" = .error "未收到结果消息" :=
  ⟨rfl, (C5_missing_result_fails [⟨Role.user, Server.MsgContent.str "q"⟩] [] "m" "id"
      ⟨0, 0, 0⟩ rfl (fun m hm => absurd hm (List.not_mem_nil m))).1⟩

/-- C5 counterexample: the Bun non-streaming branch returns a 200 success
response (with default stop reason and zero usage) for an engine stream
that contains no terminal result at all, and increments the success
counter. -/
theorem C5_counterexample :
    Bun.nonStreamingRoute (.events []) "m" "id" ⟨0, 0, 0⟩
      = (⟨0, 1, 0⟩, .jsonOk ⟨"id", [ApiBlock.text ""], "m", "end_turn", ⟨0, 0⟩⟩) :=
  rfl

/-- C6 counterexample: the Express history projection renders a
`tool_result` block as `[Tool result: <text>...]` without the invoking
identifier, and renders an array payload as an item count instead of a
serialized-then-truncated preview. -/
theorem C6_counterexample :
    Server.extractTextContent ⟨Role.user, Server.MsgContent.blocks
        [Server.ContentBlock.tool_result "toolu_1" (some (.str "abc")) none]⟩
      = "[Tool result: abc...]"
    ∧ Server.extractTextContent ⟨Role.user, Server.MsgContent.blocks
        [Server.ContentBlock.tool_result "toolu_1" (some (.arr [Json.num 1, Json.num 2])) none]⟩
      = "[Tool result: 2 items]"
    ∧ "[Tool result: abc...]" ≠ "[Tool result for toolu_1]: abc" := by
  refine ⟨?_, ?_, by decide⟩
  · rfl
  · rfl

/-- C6 (amended to the Bun variant): the Bun history projection renders a
`tool_outcome` segment as `[Tool result for <id>]: <preview>` where the
preview is at most 200 characters and an array payload is serialized with
`JSON.stringify` before truncation; the rendered line is kept in the
turn's projection. -/
theorem C6_tool_outcome_projection (r : Role) (bs : List Bun.ContentBlock)
    (id : String) (p : ToolResultPayload) (e : Option Bool)
    (hmem : Bun.ContentBlock.tool_result id p e ∈ bs) :
    Bun.renderBlock (.tool_result id p e)
        = "[Tool result for " ++ id ++ "]: " ++ Bun.previewOf p
    ∧ (Bun.previewOf p).data.length ≤ 200
    ∧ (∀ items, p = ToolResultPayload.arr items →
        Bun.previewOf p = jsTake 200 (Json.stringify (.arr items)))
    ∧ Bun.renderBlock (.tool_result id p e) ∈ Bun.projParts bs
    ∧ Bun.extractTextContent ⟨r, Bun.MsgContent.blocks bs⟩
        = String.intercalate "\n" (Bun.projParts bs) := by
  refine ⟨rfl, ?_, ?_, ?_, rfl⟩
  · cases p <;> simp [Bun.previewOf, jsTake]
  · intro items hp
    subst hp
    rfl
  · have hlen : 0 < (Bun.renderBlock (.tool_result id p e)).length := by
      have h17 : ("[Tool result for " : String).length = 17 := rfl
      simp only [Bun.renderBlock, String.length_append]
      omega
    have hne : Bun.renderBlock (.tool_result id p e) ≠ "" := by
      intro hcon
      rw [hcon] at hlen
      simp at hlen
    exact List.mem_filter.mpr ⟨List.mem_map_of_mem _ hmem, by simp [hne]⟩

/-- Witness for C6 at a concrete tool-result segment. -/
theorem C6_tool_outcome_projection_witness :
    (Bun.ContentBlock.tool_result "t1" (.str "hello") none
        ∈ [Bun.ContentBlock.tool_result "t1" (.str "hello") none])
    ∧ Bun.renderBlock (.tool_result "t1" (.str "hello") none)
        = "[Tool result for " ++ "t1" ++ "]: " ++ Bun.previewOf (.str "hello")
    ∧ (Bun.previewOf (ToolResultPayload.str "hello")).data.length ≤ 200 := by
  have hmem : Bun.ContentBlock.tool_result "t1" (.str "hello") none
      ∈ [Bun.ContentBlock.tool_result "t1" (.str "hello") none] :=
    List.mem_singleton.mpr rfl
  have h := C6_tool_outcome_projection Role.user
    [Bun.ContentBlock.tool_result "t1" (.str "hello") none] "t1" (.str "hello") none hmem
  exact ⟨hmem, h.1, h.2.1⟩

/-- C7: in aggregated mode, when zero content segments were accumulated
the response carries exactly one empty `text` segment, and the response
content is never the empty list — in both variants. -/
theorem C7_empty_content_fallback (ams : List SDKMessage) (r : SDKResult)
    (model requestId : String) (evs : List SDKMessage) :
    (Server.accumContent ams = [] →
      (Server.buildNonStreamingResponse ams r model requestId).content = [ApiBlock.text ""])
    ∧ (Server.buildNonStreamingResponse ams r model requestId).content ≠ []
    ∧ ((Bun.aggState evs).blocks = [] →
      (Bun.aggregateNonStreaming evs model requestId).content = [ApiBlock.text ""])
    ∧ (Bun.aggregateNonStreaming evs model requestId).content ≠ [] := by
  refine ⟨?_, ?_, ?_, ?_⟩
  · intro h
    simp [Server.buildNonStreamingResponse, h]
  · by_cases h : (Server.accumContent ams).length = 0
    · simp [Server.buildNonStreamingResponse, h]
    · simp only [Server.buildNonStreamingResponse, if_neg h]
      intro hcon
      exact h (by simp [hcon])
  · intro h
    simp [Bun.aggregateNonStreaming, h]
  · by_cases h : 0 < (Bun.aggState evs).blocks.length
    · simp only [Bun.aggregateNonStreaming, if_pos h]
      intro hcon
      rw [hcon] at h
      simp at h
    · simp [Bun.aggregateNonStreaming, if_neg h]

/-- Witness for C7 at an empty engine stream. -/
theorem C7_empty_content_fallback_witness :
    Server.accumContent [] = []
    ∧ (Server.buildNonStreamingResponse [] ⟨"success", false, ⟨none, none⟩⟩ "m" "id").content
        = [ApiBlock.text ""]
    ∧ (Bun.aggregateNonStreaming [] "m" "id").content = [ApiBlock.text ""] :=
  ⟨rfl,
   (C7_empty_content_fallback [] ⟨"success", false, ⟨none, none⟩⟩ "m" "id" []).1 rfl,
   (C7_empty_content_fallback [] ⟨"success", false, ⟨none, none⟩⟩ "m" "id" []).2.2.1 rfl⟩

theorem aggStep_preserves_meta (st : Bun.AggState) (m : SDKMessage)
    (h : Server.isResultMsg m = false) :
    (Bun.aggStep st m).usage = st.usage
      ∧ (Bun.aggStep st m).stop_reason = st.stop_reason := by
  cases m with
  | result r => simp [Server.isResultMsg] at h
  | stream_event e => cases e <;> simp [Bun.aggStep]
  | assistant cnt => simp [Bun.aggStep]
  | other s => simp [Bun.aggStep]

theorem aggFold_preserves_meta (pre : List SDKMessage) :
    ∀ st : Bun.AggState, (∀ m ∈ pre, Server.isResultMsg m = false) →
      (pre.foldl Bun.aggStep st).usage = st.usage
        ∧ (pre.foldl Bun.aggStep st).stop_reason = st.stop_reason := by
  induction pre with
  | nil => intro st _; exact ⟨rfl, rfl⟩
  | cons m t ih =>
    intro st h
    have hm := h m (by simp)
    have ht : ∀ x ∈ t, Server.isResultMsg x = false := fun x hx => h x (by simp [hx])
    have hstep := aggStep_preserves_meta st m hm
    have hrest := ih (Bun.aggStep st m) ht
    simp only [List.foldl_cons]
    exact ⟨hrest.1.trans hstep.1, hrest.2.trans hstep.2⟩

/-- C8: in aggregated mode, for a stream whose sole terminal result is
`r`, the Express response's stop reason is `end_turn` exactly for a
normal completion, `max_tokens` for a max-turns-exceeded result and
`error` for any other error-flagged result (never `end_turn` in either
failure case); the Bun response's stop reason is `end_turn` for a normal
completion and `error` for any error-flagged result (the engine flags
max-turns-exceeded results as errors, and the Bun branch has no separate
limit mapping).  In both variants the usage counters are taken from the
terminal result with absent fields defaulting to zero. -/
theorem C8_stop_reason_and_usage (ams : List SDKMessage) (r : SDKResult)
    (model requestId : String) (pre : List SDKMessage)
    (hpre : ∀ m ∈ pre, Server.isResultMsg m = false) :
    ((r.is_error = false ∧ r.subtype ≠ "error_max_turns") →
      (Server.buildNonStreamingResponse ams r model requestId).stop_reason = "end_turn")
    ∧ (r.subtype = "error_max_turns" →
      (Server.buildNonStreamingResponse ams r model requestId).stop_reason = "max_tokens")
    ∧ ((r.is_error = true ∧ r.subtype ≠ "error_max_turns") →
      (Server.buildNonStreamingResponse ams r model requestId).stop_reason = "error")
    ∧ ((r.is_error = true ∨ r.subtype = "error_max_turns") →
      (Server.buildNonStreamingResponse ams r model requestId).stop_reason ≠ "end_turn")
    ∧ (r.usage.input_tokens = none →
      (Server.buildNonStreamingResponse ams r model requestId).usage.input_tokens = 0)
    ∧ (∀ n, r.usage.input_tokens = some n →
      (Server.buildNonStreamingResponse ams r model requestId).usage.input_tokens = n)
    ∧ (r.usage.output_tokens = none →
      (Server.buildNonStreamingResponse ams r model requestId).usage.output_tokens = 0)
    ∧ (∀ n, r.usage.output_tokens = some n →
      (Server.buildNonStreamingResponse ams r model requestId).usage.output_tokens = n)
    ∧ (r.is_error = false →
      (Bun.aggregateNonStreaming (pre ++ [.result r]) model requestId).stop_reason = "end_turn")
    ∧ (r.is_error = true →
      (Bun.aggregateNonStreaming (pre ++ [.result r]) model requestId).stop_reason = "error"
      ∧ (Bun.aggregateNonStreaming (pre ++ [.result r]) model requestId).stop_reason ≠ "end_turn")
    ∧ (r.usage.input_tokens = none →
      (Bun.aggregateNonStreaming (pre ++ [.result r]) model requestId).usage.input_tokens = 0)
    ∧ (∀ n, r.usage.input_tokens = some n →
      (Bun.aggregateNonStreaming (pre ++ [.result r]) model requestId).usage.input_tokens = n)
    ∧ (r.usage.output_tokens = none →
      (Bun.aggregateNonStreaming (pre ++ [.result r]) model requestId).usage.output_tokens = 0)
    ∧ (∀ n, r.usage.output_tokens = some n →
      (Bun.aggregateNonStreaming (pre ++ [.result r]) model requestId).usage.output_tokens = n) := by
  have hagg : Bun.aggState (pre ++ [SDKMessage.result r])
      = Bun.aggStep (Bun.aggState pre) (.result r) := by
    simp [Bun.aggState, List.foldl_append]
  have hpre2 : (Bun.aggState pre).stop_reason = "end_turn" :=
    (aggFold_preserves_meta pre
      { blocks := [], usage := { input_tokens := 0, output_tokens := 0 },
        stop_reason := "end_turn" } hpre).2
  have hstop : (Bun.aggState (pre ++ [SDKMessage.result r])).stop_reason
      = (if r.is_error then "error" else "end_turn") := by
    rw [hagg]
    simp [Bun.aggStep, hpre2]
  have husage : (Bun.aggState (pre ++ [SDKMessage.result r])).usage
      = ⟨Server.orZero r.usage.input_tokens, Server.orZero r.usage.output_tokens⟩ := by
    rw [hagg]
    simp [Bun.aggStep]
  refine ⟨?_, ?_, ?_, ?_, ?_, ?_, ?_, ?_, ?_, ?_, ?_, ?_, ?_, ?_⟩
  · intro ⟨he, hs⟩
    simp [Server.buildNonStreamingResponse, he, hs]
  · intro hs
    simp [Server.buildNonStreamingResponse, hs]
  · intro ⟨he, hs⟩
    simp [Server.buildNonStreamingResponse, he, hs]
  · intro h
    by_cases hs : r.subtype = "error_max_turns"
    · simp [Server.buildNonStreamingResponse, hs]
    · rcases h with he | he
      · simp [Server.buildNonStreamingResponse, hs, he]
      · exact absurd he hs
  · intro h
    simp [Server.buildNonStreamingResponse, Server.orZero, h]
  · intro n h
    simp [Server.buildNonStreamingResponse, Server.orZero, h]
  · intro h
    simp [Server.buildNonStreamingResponse, Server.orZero, h]
  · intro n h
    simp [Server.buildNonStreamingResponse, Server.orZero, h]
  · intro he
    simp [Bun.aggregateNonStreaming, hstop, he]
  · intro he
    constructor
    · simp [Bun.aggregateNonStreaming, hstop, he]
    · simp [Bun.aggregateNonStreaming, hstop, he]
  · intro h
    simp [Bun.aggregateNonStreaming, husage, Server.orZero, h]
  · intro n h
    simp [Bun.aggregateNonStreaming, husage, Server.orZero, h]
  · intro h
    simp [Bun.aggregateNonStreaming, husage, Server.orZero, h]
  · intro n h
    simp [Bun.aggregateNonStreaming, husage, Server.orZero, h]

/-- Witness for C8 at a concrete normal completion with an absent input
counter, covering both variants (the Bun stream is exactly one terminal
result). -/
theorem C8_stop_reason_and_usage_witness :
    (Server.buildNonStreamingResponse [] ⟨"success", false, ⟨none, some 5⟩⟩ "m" "id").stop_reason
        = "end_turn"
    ∧ (Server.buildNonStreamingResponse [] ⟨"success", false, ⟨none, some 5⟩⟩ "m" "id").usage.input_tokens
        = 0
    ∧ (Server.buildNonStreamingResponse [] ⟨"success", false, ⟨none, some 5⟩⟩ "m" "id").usage.output_tokens
        = 5
    ∧ (Bun.aggregateNonStreaming ([] ++ [SDKMessage.result ⟨"success", false, ⟨none, some 5⟩⟩])
        "m" "id").stop_reason = "end_turn"
    ∧ (Bun.aggregateNonStreaming ([] ++ [SDKMessage.result ⟨"success", false, ⟨none, some 5⟩⟩])
        "m" "id").usage.input_tokens = 0
    ∧ (Bun.aggregateNonStreaming ([] ++ [SDKMessage.result ⟨"success", false, ⟨none, some 5⟩⟩])
        "m" "id").usage.output_tokens = 5 := by
  have h := C8_stop_reason_and_usage [] ⟨"success", false, ⟨none, some 5⟩⟩ "m" "id" []
    (fun m hm => absurd hm (List.not_mem_nil m))
  obtain ⟨c1, c2, c3, c4, c5, c6, c7, c8, c9, c10, c11, c12, c13, c14⟩ := h
  exact ⟨c1 ⟨rfl, by decide⟩, c5 rfl, c8 5 rfl, c9 rfl, c11 rfl, c14 5 rfl⟩

/-- C9 (amended): every request increments the request counter and exactly
one of the success/failure counters.  In the Express route the failure
counter is incremented exactly for validation failures and non-streaming
engine failures — a streaming-mode failure that emitted a wire `error`
event increments the success counter instead, contrary to the original
claim.  In the Bun streaming branch a failure does increment the failure
counter. -/
theorem C9_counters_per_request (msgs : List Server.Message) (isStream : Bool)
    (run : EngineRun) (model requestId : String) (c : Counters) :
    (Server.postMessages msgs isStream run model requestId c).1.requests = c.requests + 1
    ∧ (Server.postMessages msgs isStream run model requestId c).1.success
        + (Server.postMessages msgs isStream run model requestId c).1.errors
        = c.success + c.errors + 1
    ∧ ((Server.postMessages msgs isStream run model requestId c).1.errors = c.errors + 1
        ↔ (msgs.length = 0 ∨ Server.lastIsUser msgs = false
           ∨ (isStream = false
              ∧ (Server.runNonStreaming run model requestId).isOk = false)))
    ∧ ((Bun.streamingRoute run c).1.success + (Bun.streamingRoute run c).1.errors
        = c.success + c.errors + 1)
    ∧ ((Bun.streamingRoute run c).1.errors = c.errors + 1 ↔ isRaise run = true) := by
  refine ⟨?_, ?_, ?_, ?_, ?_⟩
  · by_cases h0 : msgs.length = 0
    · simp [Server.postMessages, h0]
    · by_cases hu : Server.lastIsUser msgs = false
      · simp [Server.postMessages, h0, hu]
      · have hu2 : Server.lastIsUser msgs = true := by
          cases hb : Server.lastIsUser msgs
          · exact absurd hb hu
          · rfl
        by_cases hs : isStream
        · simp [Server.postMessages, h0, hu2, hs]
        · cases hrun : Server.runNonStreaming run model requestId with
          | ok r => simp [Server.postMessages, h0, hu2, hs, hrun]
          | error m => simp [Server.postMessages, h0, hu2, hs, hrun]
  · by_cases h0 : msgs.length = 0
    · simp [Server.postMessages, h0]; omega
    · by_cases hu : Server.lastIsUser msgs = false
      · simp [Server.postMessages, h0, hu]; omega
      · have hu2 : Server.lastIsUser msgs = true := by
          cases hb : Server.lastIsUser msgs
          · exact absurd hb hu
          · rfl
        by_cases hs : isStream
        · simp [Server.postMessages, h0, hu2, hs]; omega
        · cases hrun : Server.runNonStreaming run model requestId with
          | ok r => simp [Server.postMessages, h0, hu2, hs, hrun]; omega
          | error m => simp [Server.postMessages, h0, hu2, hs, hrun]; omega
  · by_cases h0 : msgs.length = 0
    · simp [Server.postMessages, h0]
    · by_cases hu : Server.lastIsUser msgs = false
      · simp [Server.postMessages, h0, hu]
      · have hu2 : Server.lastIsUser msgs = true := by
          cases hb : Server.lastIsUser msgs
          · exact absurd hb hu
          · rfl
        by_cases hs : isStream
        · simp [Server.postMessages, h0, hu2, hs]
        · cases hrun : Server.runNonStreaming run model requestId with
          | ok r =>
            simp [Server.postMessages, h0, hu2, hs, hrun, Except.isOk, Except.toBool]
          | error m =>
            simp [Server.postMessages, h0, hu2, hs, hrun, Except.isOk, Except.toBool]
  · cases run with
    | events evs => simp [Bun.streamingRoute]; omega
    | raise pre m => simp [Bun.streamingRoute]; omega
  · cases run with
    | events evs => simp [Bun.streamingRoute, isRaise]
    | raise pre m => simp [Bun.streamingRoute, isRaise]

/-- C9 counterexample: a streaming request whose engine run raises emits a
wire `error` event, yet the Express route increments the success counter
and leaves the failure counter untouched. -/
theorem C9_counterexample :
    Server.postMessages [⟨Role.user, Server.MsgContent.str "hi"⟩] true (.raise [] "boom")
        "m" "id" ⟨0, 0, 0⟩
      = (⟨1, 1, 0⟩, .streamed [.errorEvent "boom"]) :=
  rfl

/-- Witness for C9 at a concrete invalid (empty) request. -/
theorem C9_counters_per_request_witness :
    (Server.postMessages [] false (.events []) "m" "id" ⟨0, 0, 0⟩).1.errors = 0 + 1 :=
  (C9_counters_per_request [] false (.events []) "m" "id" ⟨0, 0, 0⟩).2.2.1.mpr (Or.inl rfl)
